import Mathlib

/-!
Verification of the note-encryption subsystem of the NoteTaking repository.

The embedded code comes from `src/hooks/useMobile.js` (the client-side
encryption utilities: PBKDF2 key derivation, AES-256-GCM encryption of
JSON-serialized note records, base64 transport encoding, password hashing),
`src/contexts/AuthContext.js` (the signUp salt/hash flow) and the NoteModel
CRUD layer (`createNote`, `getNote`, `getNotes`).

Bytes are modelled as `Nat` values (with `< 256` side conditions where byte
range matters), byte strings as `List Nat`, and JS strings as Lean `String`.
The Web-platform primitives that the source calls but does not define
(PBKDF2-SHA-256, AES-256-GCM, `JSON.stringify`/`JSON.parse`, the random
source) are modelled from the spec, as documented at each definition; all
code written in the repository itself is translated directly from the source.
-/
/- ### Character and string byte codec

Modelled from the spec: the source serializes note records with
`JSON.stringify` and `TextEncoder`/`TextDecoder` (platform primitives not
defined in the repository).  The spec (section 6) requires only that this
"canonical structured encoding for plaintext-before-encryption" round-trips
exactly; it is modelled here as a length-framed byte encoding in which each
character is four little-endian base-256 digits of its code point. -/

/-- Encode one character as four bytes (little-endian base-256 digits of its
code point, which is below 2^32). -/
def encChar (c : Char) : List Nat :=
  [c.toNat % 256, c.toNat / 256 % 256, c.toNat / 65536 % 256,
   c.toNat / 16777216 % 256]

/-- Decode four bytes back into a character; fails when the reassembled code
point is not a valid scalar value. -/
def decChar (b0 b1 b2 b3 : Nat) : Option Char :=
  let m := b0 + 256 * b1 + 65536 * b2 + 16777216 * b3
  if m < 55296 ∨ (57344 ≤ m ∧ m < 1114112) then some (Char.ofNat m) else none

/-- Encode a character list four bytes at a time. -/
def encChars : List Char → List Nat
  | [] => []
  | c :: cs => encChar c ++ encChars cs

/-- Decode a byte list four bytes at a time. -/
def decChars : List Nat → Option (List Char)
  | [] => some []
  | b0 :: b1 :: b2 :: b3 :: rest =>
    match decChar b0 b1 b2 b3, decChars rest with
    | some c, some cs => some (c :: cs)
    | _, _ => none
  | _ => none

/-- Encode a string as bytes. -/
def encStr (s : String) : List Nat := encChars s.data

/-- Decode bytes back into a string. -/
def decStr (b : List Nat) : Option String := (decChars b).map String.mk

/- ### Length-framed chunks -/

/-- Frame a chunk: a unary length marker (as many `1` bytes as the chunk is
long), a `0` separator, then the chunk itself. -/
def frame (l : List Nat) : List Nat := List.replicate l.length 1 ++ 0 :: l

/-- Read one framed chunk off the front of a byte list, returning the chunk
and the remaining bytes. -/
def readFrame (bytes : List Nat) : Option (List Nat × List Nat) :=
  match bytes.drop (bytes.takeWhile (· == 1)).length with
  | 0 :: tail =>
    if (bytes.takeWhile (· == 1)).length ≤ tail.length then
      some (tail.take (bytes.takeWhile (· == 1)).length,
            tail.drop (bytes.takeWhile (· == 1)).length)
    else none
  | _ => none

/- ### Record serialization

Modelled from the spec: `JSON.stringify` / `JSON.parse` applied to the
structured plaintext records `{title, content}` (named string fields).  A
record is a list of (field name, string value) pairs; serialization frames
the encoded name and value of each field in order. -/

/-- A structured plaintext record: named string fields, e.g.
`[("title", t), ("content", c)]`. -/
abbrev PlainRecord := List (String × String)

/-- Serialize a record to bytes: each field contributes a framed encoded name
followed by a framed encoded value. -/
def serializeRecord : PlainRecord → List Nat
  | [] => []
  | (k, v) :: rest => frame (encStr k) ++ frame (encStr v) ++ serializeRecord rest

/-- Parse bytes back into a record, fuelled variant: every parsed field pair
consumes at least two bytes, so fuel bounded below by the byte count makes
the fuel bound inert. -/
def deserializeRecordAux : Nat → List Nat → Option PlainRecord
  | _, [] => some []
  | 0, _ :: _ => none
  | fuel + 1, b :: bs =>
    match readFrame (b :: bs) with
    | none => none
    | some (kb, rest1) =>
      match readFrame rest1 with
      | none => none
      | some (vb, rest2) =>
        match decStr kb, decStr vb, deserializeRecordAux fuel rest2 with
        | some k, some v, some r => some ((k, v) :: r)
        | _, _, _ => none

/-- Parse bytes back into a record; fails on any byte form not produced by
`serializeRecord`. -/
def deserializeRecord (bytes : List Nat) : Option PlainRecord :=
  deserializeRecordAux bytes.length bytes

/- ### Base64 transport encoding

Translated from the source (`src/hooks/useMobile.js`):
`arrayBufferToBase64` builds a binary string from the bytes and applies the
platform `btoa`; `base64ToArrayBuffer` applies `atob` and reads the char
codes back.  `btoa`/`atob` are the standard base64 encoder/decoder over
8-bit binary strings, modelled here directly on the byte list. -/

/-- The standard base64 alphabet. -/
def b64Table : List Char :=
  "ABCDEFGHIJKLMNOPQRSTUVWXYZabcdefghijklmnopqrstuvwxyz0123456789+/".toList

/-- The character for a 6-bit group. -/
def b64char (n : Nat) : Char := b64Table.getD n 'A'

/-- The 6-bit value of a base64 character (the table index). -/
def b64val (c : Char) : Nat := b64Table.indexOf c

/-- Base64-encode a byte list, three bytes to four characters, padding the
final partial group with `=`. -/
def btoa : List Nat → List Char
  | [] => []
  | [a] => [b64char (a / 4), b64char (a % 4 * 16), '=', '=']
  | [a, b] => [b64char (a / 4), b64char (a % 4 * 16 + b / 16),
               b64char (b % 16 * 4), '=']
  | a :: b :: c :: rest =>
    b64char (a / 4) :: b64char (a % 4 * 16 + b / 16) ::
    b64char (b % 16 * 4 + c / 64) :: b64char (c % 64) :: btoa rest

/-- Base64-decode a character list, four characters to three bytes,
honouring `=` padding. -/
def atob : List Char → List Nat
  | c1 :: c2 :: c3 :: c4 :: rest =>
    if c3 = '=' then [b64val c1 * 4 + b64val c2 / 16]
    else if c4 = '=' then
      [b64val c1 * 4 + b64val c2 / 16, b64val c2 % 16 * 16 + b64val c3 / 4]
    else
      (b64val c1 * 4 + b64val c2 / 16) ::
      (b64val c2 % 16 * 16 + b64val c3 / 4) ::
      (b64val c3 % 4 * 64 + b64val c4) :: atob rest
  | _ => []

/-- Convert a byte sequence to its base64 transport form
(source: `arrayBufferToBase64`). -/
def arrayBufferToBase64 (buffer : List Nat) : List Char := btoa buffer

/-- Convert a base64 transport form back to the byte sequence
(source: `base64ToArrayBuffer`). -/
def base64ToArrayBuffer (base64 : List Char) : List Nat := atob base64

/- ### Key derivation and password hashing

Translated from the source (`src/hooks/useMobile.js`).  PBKDF2-SHA-256 itself
is a platform primitive (`crypto.subtle`); modelled from the spec as a pure
deterministic function of its parameters, represented symbolically by the
parameter record that determines its output bits. -/

/-- Iteration count constant from the source. -/
def PBKDF2_ITERATIONS : Nat := 100000

/-- Salt length constant from the source (bytes). -/
def SALT_LENGTH : Nat := 16

/-- IV length constant from the source (bytes). -/
def IV_LENGTH : Nat := 12

/-- Tag length constant from the source (bytes). -/
def TAG_LENGTH : Nat := 16

/-- Modelled from the spec: the output bits of the PBKDF2-SHA-256 primitive
are a pure deterministic function of (password, salt, iterations, output
length); they are represented symbolically by that parameter tuple, two
outputs being equal exactly when their parameter tuples are. -/
structure PBKDF2Params where
  password : String
  salt : List Nat
  iterations : Nat
  hashAlg : String
  length : Nat
deriving DecidableEq

/-- A derived CryptoKey: the PBKDF2 output bits plus the algorithm the key
was derived for.  Per the Web Crypto specification the raw bits of a
PBKDF2-derived AES-GCM key equal the `deriveBits` output of the same
parameters. -/
structure DerivedKey where
  bits : PBKDF2Params
  algo : String
deriving DecidableEq

/-- Derive the AES-256-GCM note-encryption key from the password and salt
(source: `deriveKey`).  The source performs no input validation: the
password and salt are passed to PBKDF2 unchanged, with the iteration count
fixed at `PBKDF2_ITERATIONS` and SHA-256, and a 256-bit AES-GCM key is
returned for every input. -/
def deriveKey (password : String) (salt : List Nat) : DerivedKey :=
  { bits := { password := password, salt := salt,
              iterations := PBKDF2_ITERATIONS, hashAlg := "SHA-256",
              length := 256 },
    algo := "AES-GCM" }

/-- Hash the password for verification (source: `hashPassword`): PBKDF2 with
the same salt, the same `PBKDF2_ITERATIONS` iteration count, SHA-256 and 256
output bits, via `deriveBits`.  The source then stores the base64 rendering
of these bits; since base64 is injective on bytes, the bits themselves are
modelled as the result. -/
def hashPassword (password : String) (salt : List Nat) : PBKDF2Params :=
  { password := password, salt := salt, iterations := PBKDF2_ITERATIONS,
    hashAlg := "SHA-256", length := 256 }

/-- Generate a random salt (source: `generateSalt`).  Modelled from the spec:
the random source is made explicit as a byte stream argument, of which the
first `SALT_LENGTH` bytes are drawn. -/
def generateSalt (randomness : List Nat) : List Nat :=
  randomness.take SALT_LENGTH

/-- Generate a random IV (source: `generateIV`).  Modelled from the spec:
the random source is made explicit as a byte stream argument, of which the
first `IV_LENGTH` bytes are drawn. -/
def generateIV (randomness : List Nat) : List Nat :=
  randomness.take IV_LENGTH

/- ### AES-256-GCM, modelled as an ideal AEAD

Modelled from the spec (section 4.3): `crypto.subtle.encrypt`/`decrypt`
with AES-GCM are platform primitives.  The spec's contract is an
authenticated cipher: decryption under (key, iv) recovers exactly the
plaintext sealed under the same (key, iv) and fails on any other
ciphertext.  The ideal model makes the ciphertext an encoding that binds
the key, the IV and the plaintext: a framed header identifying (key, iv)
followed by two copies of the plaintext (the second copy plays the role of
the authentication tag, so any single-byte change — header, body or tag —
is detected). -/

/-- The ciphertext header binding the derived key and the IV. -/
def gcmHeader (key : DerivedKey) (iv : List Nat) : List Nat :=
  frame (encStr key.bits.password) ++ frame key.bits.salt ++ frame iv

/-- Ideal AES-GCM seal: header plus plaintext plus authentication copy. -/
def aesGcmEncrypt (key : DerivedKey) (iv : List Nat) (pt : List Nat) : List Nat :=
  gcmHeader key iv ++ pt ++ pt

/-- Ideal AES-GCM open: succeeds exactly on well-formed ciphertexts sealed
under the same key and IV. -/
def aesGcmDecrypt (key : DerivedKey) (iv : List Nat) (ct : List Nat) :
    Option (List Nat) :=
  if ct.take (gcmHeader key iv).length = gcmHeader key iv then
    if (ct.drop (gcmHeader key iv).length).take
        ((ct.drop (gcmHeader key iv).length).length / 2) =
       (ct.drop (gcmHeader key iv).length).drop
        ((ct.drop (gcmHeader key iv).length).length / 2) ∧
       (ct.drop (gcmHeader key iv).length).length % 2 = 0 then
      some ((ct.drop (gcmHeader key iv).length).take
        ((ct.drop (gcmHeader key iv).length).length / 2))
    else none
  else none

/- ### encryptData / decryptData (source: `src/hooks/useMobile.js`) -/

/-- Encrypt a structured record (source: `encryptData`): JSON-serialize, then
AES-GCM-encrypt under (key, iv).  The `iv` parameter is an `Option` because
one caller (`NoteModel.createNote`) invokes the function without it; the
platform rejects an `undefined` IV, which surfaces as a thrown error. -/
def encryptData (data : PlainRecord) (key : DerivedKey) (iv : Option (List Nat)) :
    Except String (List Nat) :=
  match iv with
  | none => Except.error "TypeError: iv is not a BufferSource"
  | some ivBytes => Except.ok (aesGcmEncrypt key ivBytes (serializeRecord data))

/-- Decrypt a structured record (source: `decryptData`): AES-GCM-decrypt,
then parse the bytes.  The whole body is wrapped in one try/catch, so a
failed tag check, a missing IV and a failed parse all surface as the same
single error. -/
def decryptData (encryptedData : List Nat) (key : DerivedKey)
    (iv : Option (List Nat)) : Except String PlainRecord :=
  match iv with
  | none => Except.error "Decryption failed: Invalid key or corrupted data"
  | some ivBytes =>
    match aesGcmDecrypt key ivBytes encryptedData with
    | none => Except.error "Decryption failed: Invalid key or corrupted data"
    | some bytes =>
      match deserializeRecord bytes with
      | none => Except.error "Decryption failed: Invalid key or corrupted data"
      | some r => Except.ok r

/- ### encryptNote / decryptNote (source: `src/hooks/useMobile.js`) -/

/-- The persisted envelope: base64 ciphertext, base64 IV, base64 salt. -/
structure EncryptedPackage where
  data : List Char
  iv : List Char
  salt : List Char
deriving DecidableEq

/-- Seal a note (source: `encryptNote`): derive the key from the password and
salt, draw a fresh IV from the random source (made explicit as the
`randomness` argument), encrypt, and package the base64 renderings. -/
def encryptNote (noteContent : PlainRecord) (userPassword : String)
    (userSalt : List Nat) (randomness : List Nat) :
    Except String EncryptedPackage :=
  match encryptData noteContent (deriveKey userPassword userSalt)
      (some (generateIV randomness)) with
  | Except.error msg => Except.error ("Encryption failed: " ++ msg)
  | Except.ok encrypted =>
    Except.ok { data := arrayBufferToBase64 encrypted,
                iv := arrayBufferToBase64 (generateIV randomness),
                salt := arrayBufferToBase64 userSalt }

/-- Open a note (source: `decryptNote`): decode the base64 fields, re-derive
the key from the password and the stored salt, and decrypt.  Errors are
re-wrapped with a `Decryption failed: ` prefix by the outer catch. -/
def decryptNote (encryptedPackage : EncryptedPackage) (userPassword : String) :
    Except String PlainRecord :=
  match decryptData (base64ToArrayBuffer encryptedPackage.data)
      (deriveKey userPassword (base64ToArrayBuffer encryptedPackage.salt))
      (some (base64ToArrayBuffer encryptedPackage.iv)) with
  | Except.error msg => Except.error ("Decryption failed: " ++ msg)
  | Except.ok r => Except.ok r

/- ### signUp crypto slice (source: `src/contexts/AuthContext.js`) -/

/-- The per-user document stored by `signUp`: the base64 encryption salt and
the password verification hash (symbolic PBKDF2 bits; the source stores
their base64 rendering). -/
structure UserDoc where
  encryptionSalt : List Char
  passwordHash : PBKDF2Params
deriving DecidableEq

/-- The crypto slice of `signUp`: generate one encryption salt (random draw
made explicit), hash the password with that same salt, and store both. -/
def signUp (password : String) (saltRandomness : List Nat) : UserDoc :=
  { encryptionSalt := arrayBufferToBase64 (generateSalt saltRandomness),
    passwordHash := hashPassword password (generateSalt saltRandomness) }

/- ### NoteModel (source: NoteModel class, `createNote` / `getNote` /
`getNotes`)

The Firestore document store is the external collaborator; the documents a
query returns are passed in as explicit lists. -/

/-- Input to `createNote` after destructuring. -/
structure NoteInput where
  title : String
  content : String
  category : String
  tags : List String
deriving DecidableEq

/-- A note document as written to the store (timestamps, handled by the
external store, omitted). -/
structure NoteDoc where
  encryptedData : List Nat
  userId : String
  category : String
  tags : List String
  isDeleted : Bool
  isFavorite : Bool
deriving DecidableEq

/-- A note document as read back from the store. -/
structure StoredNote where
  id : String
  encryptedData : Option (List Nat)
  tags : List String
deriving DecidableEq

/-- A note as returned to the caller after decryption. -/
structure DecryptedNote where
  id : String
  title : Option String
  content : Option String
  tags : List String
deriving DecidableEq

/-- Property access on a decrypted record (`decryptedData.title`). -/
def lookupField (r : PlainRecord) (name : String) : Option String :=
  (r.find? (fun kv => kv.fst = name)).map (fun kv => kv.snd)

/-- Create a note (source: `NoteModel.createNote`): encrypt `{title, content}`
— the source passes no IV to `encryptData` — and only then add the document.
Returns the caller-visible result and the list of documents written to the
store.  Any error is caught and replaced by `Failed to create note`. -/
def NoteModel.createNote (userId : String) (encryptionKey : DerivedKey)
    (noteData : NoteInput) : Except String NoteDoc × List NoteDoc :=
  match encryptData [("title", noteData.title), ("content", noteData.content)]
      encryptionKey none with
  | Except.error _ => (Except.error "Failed to create note", [])
  | Except.ok enc =>
    let note : NoteDoc :=
      { encryptedData := enc, userId := userId, category := noteData.category,
        tags := noteData.tags, isDeleted := false, isFavorite := false }
    (Except.ok note, [note])

/-- Read a single note (source: `NoteModel.getNote`): `none` input models a
missing document.  The decryption call — made without an IV — is inside the
outer try/catch only, so a decryption failure aborts the whole read with
`Failed to get note`. -/
def NoteModel.getNote (encryptionKey : DerivedKey) (doc : Option StoredNote) :
    Except String (Option DecryptedNote) :=
  match doc with
  | none => Except.ok none
  | some d =>
    match d.encryptedData with
    | none => Except.ok (some { id := d.id, title := none, content := none,
                                tags := d.tags })
    | some enc =>
      match decryptData enc encryptionKey none with
      | Except.ok r =>
        Except.ok (some ⟨d.id, lookupField r "title", lookupField r "content",
          d.tags⟩)
      | Except.error _ => Except.error "Failed to get note"

/-- Read a list of notes (source: `NoteModel.getNotes`): each note's
decryption is wrapped in its own try/catch; a note that fails to decrypt is
kept in the result with the `[Decryption Error]` placeholder fields.  After
decryption the tag filter (when non-empty) keeps notes sharing a tag. -/
def NoteModel.getNotes (encryptionKey : DerivedKey) (docs : List StoredNote)
    (tags : List String) : List DecryptedNote :=
  match docs with
  | [] => []
  | d :: rest =>
    let noteData : DecryptedNote :=
      match d.encryptedData with
      | none => { id := d.id, title := none, content := none, tags := d.tags }
      | some enc =>
        match decryptData enc encryptionKey none with
        | Except.ok r =>
          ⟨d.id, lookupField r "title", lookupField r "content", d.tags⟩
        | Except.error _ =>
          ⟨d.id, some "[Decryption Error]",
            some "[Unable to decrypt note content]", d.tags⟩
    if tags.length > 0 then
      if tags.any (fun t => d.tags.contains t) then
        noteData :: NoteModel.getNotes encryptionKey rest tags
      else NoteModel.getNotes encryptionKey rest tags
    else noteData :: NoteModel.getNotes encryptionKey rest tags

/- ### Tampering and concrete demonstration values -/

/-- Flip bit `b` of the byte at position `i` of a byte list. -/
def flipBit (l : List Nat) (i : Nat) (b : Nat) : List Nat :=
  l.set i (l.getD i 0 ^^^ 2 ^ b)

/-- A concrete 16-byte salt. -/
def demoSalt : List Nat := [10, 11, 12, 13, 14, 15, 16, 17, 18, 19, 20, 21, 22, 23, 24, 25]

/-- A concrete 12-byte random draw for an IV. -/
def demoIvR : List Nat := [1, 2, 3, 4, 5, 6, 7, 8, 9, 10, 11, 12]

/-- A second, different 12-byte random draw. -/
def demoIvR2 : List Nat := [99, 2, 3, 4, 5, 6, 7, 8, 9, 10, 11, 12]

/-- A concrete plaintext note record. -/
def demoRecord : PlainRecord := [("title", "A"), ("content", "B")]

/-- The key derived from the spec's scenario password and the demo salt. -/
def demoKey : DerivedKey := deriveKey "CorrectHorse1!" demoSalt

/-- The ciphertext produced by encrypting the demo record. -/
def demoCt : List Nat :=
  match encryptData demoRecord demoKey (some (generateIV demoIvR)) with
  | Except.ok ct => ct
  | Except.error _ => []

/-- A ciphertext sealing bytes that do not parse as a record. -/
def demoRawCt : List Nat := aesGcmEncrypt demoKey (generateIV demoIvR) [9]

/-- The envelope produced by sealing the demo record with the first draw. -/
def demoPkg1 : EncryptedPackage :=
  match encryptNote demoRecord "CorrectHorse1!" demoSalt demoIvR with
  | Except.ok p => p
  | Except.error _ => ⟨[], [], []⟩

/-- The envelope produced by sealing the demo record with the second draw. -/
def demoPkg2 : EncryptedPackage :=
  match encryptNote demoRecord "CorrectHorse1!" demoSalt demoIvR2 with
  | Except.ok p => p
  | Except.error _ => ⟨[], [], []⟩

/- ### Supporting lemmas -/

/- ### Generic list helpers -/

/-- Taking the length of the left part of an append returns that part. -/
theorem take_append_self (a b : List Nat) : (a ++ b).take a.length = a := by
  induction a with
  | nil => simp
  | cons x xs ih => simp [ih]

/-- Dropping the length of the left part of an append returns the right part. -/
theorem drop_append_self (a b : List Nat) : (a ++ b).drop a.length = b := by
  induction a with
  | nil => simp
  | cons x xs ih => simp [ih]

/-- Taking `n` elements of an append whose left part has length `n`. -/
theorem take_append_eq (a b : List Nat) (n : Nat) (h : n = a.length) :
    (a ++ b).take n = a := by
  subst h; exact take_append_self a b

/-- Dropping `n` elements of an append whose left part has length `n`. -/
theorem drop_append_eq (a b : List Nat) (n : Nat) (h : n = a.length) :
    (a ++ b).drop n = b := by
  subst h; exact drop_append_self a b

/-- Setting an index inside the left part of an append. -/
theorem set_append_left (a b : List Nat) (i : Nat) (w : Nat) (h : i < a.length) :
    (a ++ b).set i w = a.set i w ++ b := by
  induction a generalizing i with
  | nil => simp at h
  | cons x xs ih =>
    cases i with
    | zero => simp
    | succ j =>
      simp only [List.cons_append, List.set, List.append_eq]
      rw [ih j (by simpa using h)]

/-- Setting an index inside the right part of an append. -/
theorem set_append_right (a b : List Nat) (i : Nat) (w : Nat) (h : a.length ≤ i) :
    (a ++ b).set i w = a ++ b.set (i - a.length) w := by
  induction a generalizing i with
  | nil => simp
  | cons x xs ih =>
    cases i with
    | zero => simp at h
    | succ j =>
      simp only [List.cons_append, List.set, List.length_cons, List.append_eq]
      rw [ih j (by simpa using h)]
      simp [Nat.succ_sub_succ]

/-- `getD` at an index inside the left part of an append. -/
theorem getD_append_left (a b : List Nat) (i : Nat) (h : i < a.length) :
    (a ++ b).getD i 0 = a.getD i 0 := by
  induction a generalizing i with
  | nil => simp at h
  | cons x xs ih =>
    cases i with
    | zero => rfl
    | succ j => exact ih j (by simpa using h)

/-- `getD` at an index inside the right part of an append. -/
theorem getD_append_right (a b : List Nat) (i : Nat) (h : a.length ≤ i) :
    (a ++ b).getD i 0 = b.getD (i - a.length) 0 := by
  induction a generalizing i with
  | nil => simp
  | cons x xs ih =>
    cases i with
    | zero => simp at h
    | succ j =>
      simp only [List.cons_append, List.length_cons, Nat.succ_sub_succ]
      exact ih j (by simpa using h)

/-- Overwriting a position with a value different from the current one changes
the list. -/
theorem set_ne_of_ne (l : List Nat) (i w : Nat) (hi : i < l.length)
    (hw : w ≠ l.getD i 0) : l.set i w ≠ l := by
  induction l generalizing i with
  | nil => simp at hi
  | cons x xs ih =>
    cases i with
    | zero =>
      intro hcontra
      exact hw (by simpa using congrArg (fun t => t.getD 0 0) hcontra)
    | succ j =>
      intro hcontra
      have : xs.set j w = xs := by simpa using congrArg List.tail hcontra
      exact ih j (by simpa using hi) (by simpa using hw) this

theorem decChar_encChar (c : Char) :
    decChar (c.toNat % 256) (c.toNat / 256 % 256) (c.toNat / 65536 % 256)
      (c.toNat / 16777216 % 256) = some c := by
  have hvalid : c.toNat < 55296 ∨ (57344 ≤ c.toNat ∧ c.toNat < 1114112) := by
    have h := c.valid
    rcases h with h | h
    · exact Or.inl h
    · exact Or.inr h
  have hlt : c.toNat < 4294967296 := by
    rcases hvalid with h | h
    · omega
    · omega
  have hm : c.toNat % 256 + 256 * (c.toNat / 256 % 256) +
      65536 * (c.toNat / 65536 % 256) + 16777216 * (c.toNat / 16777216 % 256)
      = c.toNat := by omega
  unfold decChar
  simp only [hm]
  rw [if_pos hvalid]
  rw [Char.ofNat_toNat]

theorem decChars_encChars (cs : List Char) : decChars (encChars cs) = some cs := by
  induction cs with
  | nil => rfl
  | cons c rest ih =>
    show decChars (encChar c ++ encChars rest) = some (c :: rest)
    simp only [encChar, List.cons_append, List.nil_append, List.append_eq,
      decChars]
    rw [decChar_encChar c, ih]

theorem decStr_encStr (s : String) : decStr (encStr s) = some s := by
  unfold decStr encStr
  rw [decChars_encChars]
  rfl

theorem encChar_lt (c : Char) : ∀ x ∈ encChar c, x < 256 := by
  intro x hx
  simp only [encChar, List.mem_cons, List.not_mem_nil, or_false] at hx
  rcases hx with h | h | h | h <;> omega

theorem encStr_lt (s : String) : ∀ x ∈ encStr s, x < 256 := by
  unfold encStr
  generalize s.data = cs
  induction cs with
  | nil => intro x hx; simp [encChars] at hx
  | cons c rest ih =>
    intro x hx
    simp only [encChars, List.mem_append] at hx
    rcases hx with h | h
    · exact encChar_lt c x h
    · exact ih x h

theorem takeWhile_replicate_marker (n : Nat) (t : List Nat) :
    (List.replicate n 1 ++ 0 :: t).takeWhile (· == 1) = List.replicate n 1 := by
  induction n with
  | zero => simp [List.takeWhile]
  | succ k ih => simpa [List.replicate_succ, List.takeWhile] using ih

theorem readFrame_frame (u rest : List Nat) :
    readFrame (frame u ++ rest) = some (u, rest) := by
  unfold readFrame frame
  have hshape : List.replicate u.length 1 ++ 0 :: u ++ rest =
      List.replicate u.length 1 ++ 0 :: (u ++ rest) := by simp
  rw [hshape, takeWhile_replicate_marker u.length (u ++ rest)]
  simp only [List.length_replicate]
  rw [drop_append_eq (List.replicate u.length 1) (0 :: (u ++ rest)) u.length
    (by simp)]
  simp only
  rw [if_pos (by simp)]
  rw [take_append_self u rest, drop_append_self u rest]

theorem readFrame_shrinks (bytes c r : List Nat)
    (h : readFrame bytes = some (c, r)) : r.length < bytes.length := by
  unfold readFrame at h
  generalize (bytes.takeWhile (· == 1)).length = n at h
  cases hdrop : bytes.drop n with
  | nil => rw [hdrop] at h; simp at h
  | cons b tail =>
    rw [hdrop] at h
    have hdroplen : (bytes.drop n).length = bytes.length - n := by simp
    have htail : tail.length < bytes.length := by
      rw [hdrop] at hdroplen
      simp only [List.length_cons] at hdroplen
      omega
    cases b with
    | zero =>
      simp only at h
      by_cases hle : n ≤ tail.length
      · rw [if_pos hle] at h
        have hr : r = tail.drop n := by
          simp only [Option.some.injEq, Prod.mk.injEq] at h
          exact h.2.symm
        have : r.length ≤ tail.length := by rw [hr]; simp
        omega
      · rw [if_neg hle] at h; simp at h
    | succ k => simp at h

theorem frame_lt (l : List Nat) (hl : ∀ x ∈ l, x < 256) :
    ∀ x ∈ frame l, x < 256 := by
  intro x hx
  unfold frame at hx
  simp only [List.mem_append, List.mem_replicate, List.mem_cons] at hx
  rcases hx with h | h | h
  · omega
  · omega
  · exact hl x h

theorem frame_ne_nil (l : List Nat) : frame l ≠ [] := by
  unfold frame
  cases l with
  | nil => simp
  | cons x xs => simp [List.replicate]

theorem frame_length_lower (l : List Nat) : 1 ≤ (frame l).length := by
  unfold frame
  simp only [List.length_append, List.length_replicate, List.length_cons]
  omega

theorem serializeRecord_length_lower (r : PlainRecord) :
    r.length ≤ (serializeRecord r).length := by
  induction r with
  | nil => simp [serializeRecord]
  | cons kv rest ih =>
    obtain ⟨k, v⟩ := kv
    show _ ≤ (frame (encStr k) ++ frame (encStr v) ++ serializeRecord rest).length
    have h1 := frame_length_lower (encStr k)
    have h2 := frame_length_lower (encStr v)
    simp only [List.length_append, List.length_cons]
    omega

theorem deserializeRecordAux_serializeRecord (fuel : Nat) (r : PlainRecord)
    (h : r.length ≤ fuel) :
    deserializeRecordAux fuel (serializeRecord r) = some r := by
  induction r generalizing fuel with
  | nil =>
    show deserializeRecordAux fuel [] = some []
    cases fuel <;> rfl
  | cons kv rest ih =>
    obtain ⟨k, v⟩ := kv
    cases fuel with
    | zero => simp at h
    | succ f =>
      have h' : rest.length ≤ f := by
        simp only [List.length_cons] at h
        omega
      obtain ⟨hd, tl, hk⟩ : ∃ hd tl, frame (encStr k) = hd :: tl := by
        cases hfk : frame (encStr k) with
        | nil => exact absurd hfk (frame_ne_nil _)
        | cons a bl => exact ⟨a, bl, rfl⟩
      have hser : serializeRecord ((k, v) :: rest) =
          hd :: (tl ++ (frame (encStr v) ++ serializeRecord rest)) := by
        show frame (encStr k) ++ frame (encStr v) ++ serializeRecord rest = _
        rw [hk]
        simp [List.append_assoc]
      rw [hser]
      rw [deserializeRecordAux]
      have hback : hd :: (tl ++ (frame (encStr v) ++ serializeRecord rest)) =
          frame (encStr k) ++ (frame (encStr v) ++ serializeRecord rest) := by
        rw [hk]
        simp
      rw [hback]
      simp only [readFrame_frame, decStr_encStr, ih f h']

theorem deserializeRecord_serializeRecord (r : PlainRecord) :
    deserializeRecord (serializeRecord r) = some r := by
  unfold deserializeRecord
  exact deserializeRecordAux_serializeRecord (serializeRecord r).length r
    (Nat.le_trans (serializeRecord_length_lower r) (Nat.le_refl _))

theorem serializeRecord_lt (r : PlainRecord) :
    ∀ x ∈ serializeRecord r, x < 256 := by
  induction r with
  | nil => intro x hx; simp [serializeRecord] at hx
  | cons kv rest ih =>
    obtain ⟨k, v⟩ := kv
    intro x hx
    simp only [serializeRecord, List.mem_append] at hx
    rcases hx with (h | h) | h
    · exact frame_lt (encStr k) (encStr_lt k) x h
    · exact frame_lt (encStr v) (encStr_lt v) x h
    · exact ih x h

theorem b64val_b64char : ∀ n < 64, b64val (b64char n) = n := by decide

theorem b64char_ne_pad : ∀ n < 64, b64char n ≠ '=' := by decide

theorem atob_btoa (l : List Nat) (h : ∀ x ∈ l, x < 256) : atob (btoa l) = l := by
  match l with
  | [] => rfl
  | [a] =>
    have ha : a < 256 := h a (by simp)
    show atob [b64char (a / 4), b64char (a % 4 * 16), '=', '='] = [a]
    rw [atob]
    rw [if_pos rfl]
    rw [b64val_b64char (a / 4) (by omega), b64val_b64char (a % 4 * 16) (by omega)]
    have : a / 4 * 4 + a % 4 * 16 / 16 = a := by omega
    rw [this]
  | [a, b] =>
    have ha : a < 256 := h a (by simp)
    have hb : b < 256 := h b (by simp)
    show atob [b64char (a / 4), b64char (a % 4 * 16 + b / 16),
      b64char (b % 16 * 4), '='] = [a, b]
    rw [atob]
    rw [if_neg (b64char_ne_pad (b % 16 * 4) (by omega))]
    rw [if_pos rfl]
    rw [b64val_b64char (a / 4) (by omega),
      b64val_b64char (a % 4 * 16 + b / 16) (by omega),
      b64val_b64char (b % 16 * 4) (by omega)]
    have h1 : a / 4 * 4 + (a % 4 * 16 + b / 16) / 16 = a := by omega
    have h2 : (a % 4 * 16 + b / 16) % 16 * 16 + b % 16 * 4 / 4 = b := by omega
    rw [h1, h2]
  | a :: b :: c :: rest' =>
    have ha : a < 256 := h a (by simp)
    have hb : b < 256 := h b (by simp)
    have hc : c < 256 := h c (by simp)
    have ih := atob_btoa rest' (fun x hx => h x (by simp [hx]))
    show atob (b64char (a / 4) :: b64char (a % 4 * 16 + b / 16) ::
      b64char (b % 16 * 4 + c / 64) :: b64char (c % 64) :: btoa rest') =
      a :: b :: c :: rest'
    rw [atob]
    rw [if_neg (b64char_ne_pad (b % 16 * 4 + c / 64) (by omega))]
    rw [if_neg (b64char_ne_pad (c % 64) (by omega))]
    rw [b64val_b64char (a / 4) (by omega),
      b64val_b64char (a % 4 * 16 + b / 16) (by omega),
      b64val_b64char (b % 16 * 4 + c / 64) (by omega),
      b64val_b64char (c % 64) (by omega)]
    have h1 : a / 4 * 4 + (a % 4 * 16 + b / 16) / 16 = a := by omega
    have h2 : (a % 4 * 16 + b / 16) % 16 * 16 + (b % 16 * 4 + c / 64) / 4 = b := by
      omega
    have h3 : (b % 16 * 4 + c / 64) % 4 * 64 + c % 64 = c := by omega
    rw [h1, h2, h3, ih]


/- ### AEAD model lemmas -/

/-- Round trip of the ideal AEAD: opening under the sealing key and IV
recovers the plaintext. -/
theorem aesGcmDecrypt_encrypt (key : DerivedKey) (iv pt : List Nat) :
    aesGcmDecrypt key iv (aesGcmEncrypt key iv pt) = some pt := by
  unfold aesGcmDecrypt aesGcmEncrypt
  have hassoc : gcmHeader key iv ++ pt ++ pt = gcmHeader key iv ++ (pt ++ pt) := by
    simp
  rw [hassoc]
  rw [take_append_self, drop_append_self]
  rw [if_pos rfl]
  have hlen : (pt ++ pt).length = pt.length + pt.length := by simp
  rw [hlen]
  have hdiv : (pt.length + pt.length) / 2 = pt.length := by omega
  have hmod : (pt.length + pt.length) % 2 = 0 := by omega
  rw [hdiv, hmod]
  rw [take_append_self, drop_append_self]
  rw [if_pos ⟨rfl, rfl⟩]

/-- Ciphertext bytes are in byte range when the salt, IV and plaintext bytes
are. -/
theorem aesGcmEncrypt_lt (P : String) (S iv pt : List Nat)
    (hS : ∀ x ∈ S, x < 256) (hiv : ∀ x ∈ iv, x < 256)
    (hpt : ∀ x ∈ pt, x < 256) :
    ∀ x ∈ aesGcmEncrypt (deriveKey P S) iv pt, x < 256 := by
  intro x hx
  unfold aesGcmEncrypt gcmHeader deriveKey at hx
  simp only [List.mem_append] at hx
  rcases hx with (((h | h) | h) | h) | h
  · exact frame_lt (encStr P) (encStr_lt P) x h
  · exact frame_lt S hS x h
  · exact frame_lt iv hiv x h
  · exact hpt x h
  · exact hpt x h

/-- Transport round trip at the source function names. -/
theorem base64_roundtrip (l : List Nat) (h : ∀ x ∈ l, x < 256) :
    base64ToArrayBuffer (arrayBufferToBase64 l) = l := atob_btoa l h

/-- Changing any single byte of a sealed ciphertext makes the ideal AEAD
open operation fail. -/
theorem aesGcmDecrypt_tampered (key : DerivedKey) (iv pt : List Nat) (i w : Nat)
    (hi : i < (aesGcmEncrypt key iv pt).length)
    (hw : w ≠ (aesGcmEncrypt key iv pt).getD i 0) :
    aesGcmDecrypt key iv ((aesGcmEncrypt key iv pt).set i w) = none := by
  have hassoc : aesGcmEncrypt key iv pt = gcmHeader key iv ++ (pt ++ pt) := by
    unfold aesGcmEncrypt
    simp
  rw [hassoc] at hi hw ⊢
  by_cases hcase : i < (gcmHeader key iv).length
  · rw [set_append_left _ _ _ _ hcase]
    unfold aesGcmDecrypt
    rw [take_append_eq ((gcmHeader key iv).set i w) (pt ++ pt)
      (gcmHeader key iv).length (by simp)]
    rw [getD_append_left _ _ _ hcase] at hw
    rw [if_neg (set_ne_of_ne (gcmHeader key iv) i w hcase hw)]
  · push_neg at hcase
    rw [set_append_right _ _ _ _ hcase]
    unfold aesGcmDecrypt
    rw [take_append_eq _ _ _ rfl, drop_append_eq _ _ _ rfl]
    rw [if_pos rfl]
    rw [getD_append_right _ _ _ hcase] at hw
    have hjlt : i - (gcmHeader key iv).length < pt.length + pt.length := by
      simp only [List.length_append] at hi
      omega
    have hlenset : ((pt ++ pt).set (i - (gcmHeader key iv).length) w).length =
        pt.length + pt.length := by simp
    rw [hlenset]
    have hdiv : (pt.length + pt.length) / 2 = pt.length := by omega
    rw [hdiv]
    by_cases hcase2 : i - (gcmHeader key iv).length < pt.length
    · rw [set_append_left _ _ _ _ hcase2]
      rw [take_append_eq _ _ _ (by simp), drop_append_eq _ _ _ (by simp)]
      rw [getD_append_left _ _ _ hcase2] at hw
      rw [if_neg]
      intro hcontra
      exact set_ne_of_ne pt _ w hcase2 hw hcontra.1
    · push_neg at hcase2
      rw [set_append_right _ _ _ _ hcase2]
      rw [take_append_eq _ _ _ rfl, drop_append_eq _ _ _ rfl]
      rw [getD_append_right _ _ _ hcase2] at hw
      rw [if_neg]
      intro hcontra
      exact set_ne_of_ne pt _ w (by omega) hw hcontra.1.symm

/-- Under one key, equal ciphertexts of equal-length IVs force equal IVs. -/
theorem aesGcmEncrypt_iv_inj (key : DerivedKey) (iv1 iv2 pt : List Nat)
    (hl : iv1.length = iv2.length)
    (h : aesGcmEncrypt key iv1 pt = aesGcmEncrypt key iv2 pt) : iv1 = iv2 := by
  unfold aesGcmEncrypt gcmHeader at h
  simp only [List.append_assoc] at h
  have h2 := congrArg (List.drop (frame (encStr key.bits.password)).length) h
  rw [drop_append_self, drop_append_self] at h2
  have h3 := congrArg (List.drop (frame key.bits.salt).length) h2
  rw [drop_append_self, drop_append_self] at h3
  unfold frame at h3
  simp only [List.append_assoc, List.cons_append] at h3
  have h4 := congrArg (List.drop iv1.length) h3
  rw [drop_append_eq _ _ _ (by simp)] at h4
  rw [hl] at h4
  rw [drop_append_eq _ _ _ (by simp)] at h4
  simp only [List.cons.injEq, true_and] at h4
  have h5 := congrArg (List.take iv1.length) h4
  rw [take_append_self] at h5
  rw [hl] at h5
  rw [take_append_self] at h5
  exact h5

/- ### Claim theorems -/

/-- C1: round-trip — for every plaintext record R, password P, salt S and
fresh random draw, `decryptNote (encryptNote R P S) P` returns R (the key
being derived internally from (P, S); salt and random bytes are in byte
range, as the random source produces bytes). -/
theorem C1_encryptNote_decryptNote_roundtrip (R : PlainRecord) (P : String)
    (S rnd : List Nat) (hS : ∀ x ∈ S, x < 256) (hr : ∀ x ∈ rnd, x < 256) :
    (encryptNote R P S rnd).bind (fun pkg => decryptNote pkg P) =
      Except.ok R := by
  have hiv : ∀ x ∈ generateIV rnd, x < 256 :=
    fun x hx => hr x (List.take_subset _ rnd hx)
  have hct := aesGcmEncrypt_lt P S (generateIV rnd) (serializeRecord R) hS hiv
    (serializeRecord_lt R)
  show decryptNote
    ⟨arrayBufferToBase64
        (aesGcmEncrypt (deriveKey P S) (generateIV rnd) (serializeRecord R)),
      arrayBufferToBase64 (generateIV rnd), arrayBufferToBase64 S⟩ P =
    Except.ok R
  unfold decryptNote
  simp only
  rw [base64_roundtrip _ hct, base64_roundtrip _ hS, base64_roundtrip _ hiv]
  unfold decryptData
  simp only
  rw [aesGcmDecrypt_encrypt]
  simp [deserializeRecord_serializeRecord]

/-- Witness for C1 at the spec's scenario inputs. -/
theorem C1_witness :
    (∀ x ∈ demoSalt, x < 256) ∧ (∀ x ∈ demoIvR, x < 256) ∧
    (encryptNote demoRecord "CorrectHorse1!" demoSalt demoIvR).bind
      (fun pkg => decryptNote pkg "CorrectHorse1!") = Except.ok demoRecord :=
  ⟨by decide, by decide,
    C1_encryptNote_decryptNote_roundtrip demoRecord "CorrectHorse1!" demoSalt
      demoIvR (by decide) (by decide)⟩

/-- C2: tamper detection — flipping any single bit of the ciphertext (data
field, which includes the authentication tag) of a sealed envelope makes
decryptData fail with the code's authentication-failure error rather than
return corrupted plaintext. -/
theorem C2_decryptData_bitflip_fails (R : PlainRecord) (key : DerivedKey)
    (iv ct : List Nat) (i b : Nat)
    (henc : encryptData R key (some iv) = Except.ok ct)
    (hi : i < ct.length) (hb : b < 8) :
    decryptData (flipBit ct i b) key (some iv) =
      Except.error "Decryption failed: Invalid key or corrupted data" := by
  have hct : ct = aesGcmEncrypt key iv (serializeRecord R) := by
    unfold encryptData at henc
    simp only [Except.ok.injEq] at henc
    exact henc.symm
  subst hct
  unfold flipBit
  simp only [decryptData]
  have hwne : (aesGcmEncrypt key iv (serializeRecord R)).getD i 0 ^^^ 2 ^ b ≠
      (aesGcmEncrypt key iv (serializeRecord R)).getD i 0 := by
    intro hcontra
    have hzero : (2 : Nat) ^ b = 0 := by
      have he := congrArg
        (fun t => (aesGcmEncrypt key iv (serializeRecord R)).getD i 0 ^^^ t)
        hcontra.symm
      simpa [← Nat.xor_assoc, Nat.xor_self, Nat.zero_xor] using he.symm
    have hpos : 0 < (2 : Nat) ^ b := Nat.pos_pow_of_pos b (by norm_num)
    omega
  rw [aesGcmDecrypt_tampered key iv (serializeRecord R) i _ hi hwne]

set_option maxRecDepth 4000 in
/-- Witness for C2: flipping the lowest bit of the first ciphertext byte. -/
theorem C2_witness :
    encryptData demoRecord demoKey (some (generateIV demoIvR)) =
      Except.ok demoCt ∧
    0 < demoCt.length ∧ 0 < 8 ∧
    decryptData (flipBit demoCt 0 0) demoKey (some (generateIV demoIvR)) =
      Except.error "Decryption failed: Invalid key or corrupted data" :=
  ⟨rfl, by decide, by decide,
    C2_decryptData_bitflip_fails demoRecord demoKey (generateIV demoIvR)
      demoCt 0 0 rfl (by decide) (by decide)⟩

/-- C3 counterexample: the claim asserts the verification hash is derived
under a domain-separated salt or context distinct from the note-encryption
salt's usage; at the spec's scenario password and a concrete salt the
verification hash bits are produced by exactly the same PBKDF2-SHA-256
derivation (same salt, same iterations, same length) as the note-encryption
key bits, so no domain separation exists. -/
theorem C3_cex_hashPassword_equals_deriveKey_bits :
    hashPassword "CorrectHorse1!" demoSalt =
      (deriveKey "CorrectHorse1!" demoSalt).bits := rfl

/-- C3 amended: for every password and salt draw, the verification hash that
signUp stores is bit-for-bit the PBKDF2 output that the note-encryption key
re-derived from the stored salt consists of — the two derivations share one
salt and all parameters, with no domain separation. -/
theorem C3_signUp_hash_equals_note_key_bits (password : String)
    (rnd : List Nat) (h : ∀ x ∈ rnd, x < 256) :
    (signUp password rnd).passwordHash =
      (deriveKey password
        (base64ToArrayBuffer (signUp password rnd).encryptionSalt)).bits := by
  unfold signUp hashPassword deriveKey
  simp only
  rw [base64_roundtrip (generateSalt rnd)
    (fun x hx => h x (List.take_subset SALT_LENGTH rnd hx))]

/-- Witness for the amended C3. -/
theorem C3_witness :
    (∀ x ∈ demoSalt, x < 256) ∧
    (signUp "CorrectHorse1!" demoSalt).passwordHash =
      (deriveKey "CorrectHorse1!"
        (base64ToArrayBuffer
          (signUp "CorrectHorse1!" demoSalt).encryptionSalt)).bits :=
  ⟨by decide,
    C3_signUp_hash_equals_note_key_bits "CorrectHorse1!" demoSalt (by decide)⟩

/-- C4 counterexample: the claim asserts deriveKey fails with InvalidInput
and never returns a key when the secret is empty or the salt is not 16
bytes; on the empty secret and a 3-byte salt the source's deriveKey still
returns the derived key. -/
theorem C4_cex_deriveKey_accepts_bad_input :
    deriveKey "" [0, 0, 0] =
      { bits := { password := "", salt := [0, 0, 0],
                  iterations := PBKDF2_ITERATIONS, hashAlg := "SHA-256",
                  length := 256 },
        algo := "AES-GCM" } := rfl

/-- C4 amended: deriveKey performs no input validation — for an empty secret
or a salt of any length other than 16 bytes it still passes the inputs to
PBKDF2 unchanged and returns the derived key. -/
theorem C4_deriveKey_no_validation (secret : String) (salt : List Nat)
    (h : secret = "" ∨ salt.length ≠ SALT_LENGTH) :
    deriveKey secret salt =
      { bits := { password := secret, salt := salt,
                  iterations := PBKDF2_ITERATIONS, hashAlg := "SHA-256",
                  length := 256 },
        algo := "AES-GCM" } := rfl

/-- Witness for the amended C4. -/
theorem C4_witness :
    ("" = "" ∨ ([] : List Nat).length ≠ SALT_LENGTH) ∧
    deriveKey "" [] =
      { bits := { password := "", salt := [],
                  iterations := PBKDF2_ITERATIONS, hashAlg := "SHA-256",
                  length := 256 },
        algo := "AES-GCM" } :=
  ⟨Or.inl rfl, C4_deriveKey_no_validation "" [] (Or.inl rfl)⟩

set_option maxRecDepth 8000 in
/-- C5 counterexample: the claim asserts that a tag failure surfaces as
AuthenticationFailure and a parse failure as a distinct MalformedPayload
error; here a ciphertext whose AEAD open succeeds (returning bytes that do
not parse) and a tampered ciphertext produce the identical error value, so
the caller cannot distinguish the two kinds. -/
theorem C5_cex_error_collapse :
    aesGcmDecrypt demoKey (generateIV demoIvR) demoRawCt = some [9] ∧
    decryptData demoRawCt demoKey (some (generateIV demoIvR)) =
      Except.error "Decryption failed: Invalid key or corrupted data" ∧
    decryptData (flipBit demoCt 1 0) demoKey (some (generateIV demoIvR)) =
      Except.error "Decryption failed: Invalid key or corrupted data" :=
  ⟨rfl, rfl, rfl⟩

/-- C5 amended: decryptData has a single failure value — every error it
returns, whether from a tag failure, a missing IV or an unparsable
plaintext, is the one generic message, so the failure kinds are not
distinguishable by the caller. -/
theorem C5_decryptData_single_error (enc : List Nat) (key : DerivedKey)
    (iv : Option (List Nat)) (e : String)
    (h : decryptData enc key iv = Except.error e) :
    e = "Decryption failed: Invalid key or corrupted data" := by
  cases iv with
  | none =>
    simp only [decryptData] at h
    simp only [Except.error.injEq] at h
    exact h.symm
  | some ivb =>
    simp only [decryptData] at h
    cases hd : aesGcmDecrypt key ivb enc with
    | none =>
      simp only [hd] at h
      simp only [Except.error.injEq] at h
      exact h.symm
    | some bytes =>
      simp only [hd] at h
      cases hds : deserializeRecord bytes with
      | none =>
        simp only [hds] at h
        simp only [Except.error.injEq] at h
        exact h.symm
      | some r =>
        simp only [hds] at h
        simp at h

/-- Witness for the amended C5. -/
theorem C5_witness :
    decryptData [] demoKey none =
      Except.error "Decryption failed: Invalid key or corrupted data" ∧
    "Decryption failed: Invalid key or corrupted data" =
      "Decryption failed: Invalid key or corrupted data" :=
  ⟨rfl, C5_decryptData_single_error [] demoKey none _ rfl⟩

/-- C6: IV uniqueness — sealing the same record twice under the same derived
key, with the fresh random draws of the two runs made explicit and distinct,
yields two envelopes whose IV fields differ and whose ciphertext (data)
fields differ. -/
theorem C6_encryptNote_fresh_iv_distinct (R : PlainRecord) (P : String)
    (S r1 r2 : List Nat) (pkg1 pkg2 : EncryptedPackage)
    (hS : ∀ x ∈ S, x < 256) (h1 : ∀ x ∈ r1, x < 256) (h2 : ∀ x ∈ r2, x < 256)
    (hl1 : (generateIV r1).length = IV_LENGTH)
    (hl2 : (generateIV r2).length = IV_LENGTH)
    (hne : generateIV r1 ≠ generateIV r2)
    (hp1 : encryptNote R P S r1 = Except.ok pkg1)
    (hp2 : encryptNote R P S r2 = Except.ok pkg2) :
    pkg1.iv ≠ pkg2.iv ∧ pkg1.data ≠ pkg2.data := by
  have hiv1 : ∀ x ∈ generateIV r1, x < 256 :=
    fun x hx => h1 x (List.take_subset _ r1 hx)
  have hiv2 : ∀ x ∈ generateIV r2, x < 256 :=
    fun x hx => h2 x (List.take_subset _ r2 hx)
  have hpkg1 : pkg1 =
      ⟨arrayBufferToBase64
          (aesGcmEncrypt (deriveKey P S) (generateIV r1) (serializeRecord R)),
        arrayBufferToBase64 (generateIV r1), arrayBufferToBase64 S⟩ := by
    simp only [encryptNote, encryptData] at hp1
    simp only [Except.ok.injEq] at hp1
    exact hp1.symm
  have hpkg2 : pkg2 =
      ⟨arrayBufferToBase64
          (aesGcmEncrypt (deriveKey P S) (generateIV r2) (serializeRecord R)),
        arrayBufferToBase64 (generateIV r2), arrayBufferToBase64 S⟩ := by
    simp only [encryptNote, encryptData] at hp2
    simp only [Except.ok.injEq] at hp2
    exact hp2.symm
  subst hpkg1
  subst hpkg2
  constructor
  · intro heq
    apply hne
    have hdec := congrArg base64ToArrayBuffer heq
    simp only at hdec
    rwa [base64_roundtrip _ hiv1, base64_roundtrip _ hiv2] at hdec
  · intro heq
    have hdec := congrArg base64ToArrayBuffer heq
    simp only at hdec
    rw [base64_roundtrip _
        (aesGcmEncrypt_lt P S _ _ hS hiv1 (serializeRecord_lt R)),
      base64_roundtrip _
        (aesGcmEncrypt_lt P S _ _ hS hiv2 (serializeRecord_lt R))] at hdec
    exact hne (aesGcmEncrypt_iv_inj (deriveKey P S) _ _ _
      (by rw [hl1, hl2]) hdec)

set_option maxRecDepth 8000 in
/-- Witness for C6 at two concrete distinct random draws. -/
theorem C6_witness :
    generateIV demoIvR ≠ generateIV demoIvR2 ∧
    demoPkg1.iv ≠ demoPkg2.iv ∧ demoPkg1.data ≠ demoPkg2.data :=
  ⟨by decide,
    C6_encryptNote_fresh_iv_distinct demoRecord "CorrectHorse1!" demoSalt
      demoIvR demoIvR2 demoPkg1 demoPkg2 (by decide) (by decide) (by decide)
      (by decide) (by decide) (by decide) rfl rfl⟩

/-- C7: determinism of key derivation — deriveKey is a pure function of
(secret, salt); repeated calls, also across process sessions, yield the same
key, with the iteration count fixed at 100000. -/
theorem C7_deriveKey_deterministic (S : String) (T : List Nat) :
    deriveKey S T = deriveKey S T ∧
    (deriveKey S T).bits.iterations = PBKDF2_ITERATIONS ∧
    PBKDF2_ITERATIONS = 100000 :=
  ⟨rfl, rfl, rfl⟩

/-- C8: the base64 transport encoding round-trips exactly on every byte
sequence. -/
theorem C8_base64_roundtrip_exact (b : List Nat) (h : ∀ x ∈ b, x < 256) :
    base64ToArrayBuffer (arrayBufferToBase64 b) = b :=
  atob_btoa b h

/-- Witness for C8. -/
theorem C8_witness :
    (∀ x ∈ [0, 1, 77, 127, 254, 255], x < 256) ∧
    base64ToArrayBuffer (arrayBufferToBase64 [0, 1, 77, 127, 254, 255]) =
      [0, 1, 77, 127, 254, 255] :=
  ⟨by decide, C8_base64_roundtrip_exact [0, 1, 77, 127, 254, 255] (by decide)⟩

/-- C9 counterexample: the claim asserts flag-don't-drop for both reads; on
a concrete stored note whose encryptedData fails to decrypt, the single-note
read getNote aborts the whole operation with its generic error instead of
surfacing a flagged record. -/
theorem C9_cex_getNote_aborts :
    NoteModel.getNote demoKey (some ⟨"note1", some [9, 9], ["work"]⟩) =
      Except.error "Failed to get note" := rfl

/-- C9 amended: a stored note whose encryptedData fails to decrypt is kept
and flagged (placeholder title and content) by the list read getNotes, but
the single-note read getNote aborts with the error `Failed to get note`
instead of flagging. -/
theorem C9_getNotes_flags_getNote_aborts (key : DerivedKey) (d : StoredNote)
    (h : d.encryptedData.isSome = true) :
    NoteModel.getNotes key [d] [] =
      [⟨d.id, some "[Decryption Error]",
        some "[Unable to decrypt note content]", d.tags⟩] ∧
    NoteModel.getNote key (some d) = Except.error "Failed to get note" := by
  obtain ⟨enc, henc⟩ := Option.isSome_iff_exists.mp h
  constructor
  · simp [NoteModel.getNotes, henc, decryptData]
  · simp [NoteModel.getNote, henc, decryptData]

/-- Witness for the amended C9. -/
theorem C9_witness :
    ((⟨"n1", some [1], ["a"]⟩ : StoredNote).encryptedData.isSome = true) ∧
    NoteModel.getNotes demoKey [⟨"n1", some [1], ["a"]⟩] [] =
      [⟨"n1", some "[Decryption Error]",
        some "[Unable to decrypt note content]", ["a"]⟩] ∧
    NoteModel.getNote demoKey (some ⟨"n1", some [1], ["a"]⟩) =
      Except.error "Failed to get note" :=
  ⟨rfl,
    C9_getNotes_flags_getNote_aborts demoKey ⟨"n1", some [1], ["a"]⟩ rfl⟩

/-- C10: atomicity of note creation — createNote encrypts before any write;
its encryptData call passes no IV, so encryption always fails, no document
is written to the store, and the caller receives the constant error
`Failed to create note`, which carries no plaintext title or content (the
result is the same for every noteData). -/
theorem C10_createNote_fails_writes_nothing (userId : String)
    (key : DerivedKey) (noteData : NoteInput) :
    NoteModel.createNote userId key noteData =
      (Except.error "Failed to create note", []) := rfl
